import Mathlib

/-!
Verification development for the careergini backend (haystack-service and
ai-service).  The Python sources are shallowly embedded as executable Lean
functions over `List Char` / `String`:

* `parseJsonModel` embeds `_parse_json` from
  `haystack-service/agents/resume_advisor_agent.py`;
* `loadsChars` embeds Python's strict `json.loads` (the parser skips
  surrounding whitespace; we model this by pre-stripping, which yields the
  same input/output behaviour);
* `PersonaManager` mutators (`ingest_resume_data`, `update_from_chat`,
  `save`, `_add_source`) from `haystack-service/persona_manager.py`;
* the router (`HaystackWorkflow.ainvoke` from
  `haystack-service/orchestration/workflow.py` composed with
  `SupervisorAgent.run` from `ai-service/agents/supervisor.py`, the
  supervisor implementation present in the sources); the model call is
  abstracted as an `Option String` (`none` = the call raises);
* the SSE generator of `POST /chat/stream` from `haystack-service/main.py`;
* `ResponseCache` from `haystack-service/cache/redis_cache.py`.

Unicode-only behaviours (`str.lower`, `str.strip` on non-ASCII whitespace)
are modelled on their ASCII fragment, and `\uXXXX` escapes that denote lone
surrogates make the modelled parser fail where CPython would return a lone
surrogate character; no claim below depends on those corners.
-/

/-- JSON values as produced by `json.loads`.  Numbers keep their source
lexeme (all claims compare values arising from identical number lexemes);
objects are insertion-ordered key/value lists, duplicate keys collapsed the
way a Python dict does (first position, last value). -/
inductive Json where
  | null : Json
  | bool (b : Bool) : Json
  | num (lexeme : String) : Json
  | str (s : String) : Json
  | arr (elems : List Json) : Json
  | obj (fields : List (String × Json)) : Json

/-- Whitespace recognised by Python's `str.strip()` and by the regex class
`\s`, restricted to ASCII: space, tab, newline, carriage return, vertical
tab, form feed. -/
def isPyWs (c : Char) : Bool :=
  c = ' ' || c = '\t' || c = '\n' || c = '\r' ||
  c = Char.ofNat 11 || c = Char.ofNat 12

/-- Whitespace accepted between JSON tokens (RFC 8259, as in CPython's
`json` module): space, tab, newline, carriage return. -/
def isJsonWs (c : Char) : Bool :=
  c = ' ' || c = '\t' || c = '\n' || c = '\r'

/-- Leading-whitespace removal, the left half of `str.strip()`. -/
def dropLeftWs (l : List Char) : List Char := l.dropWhile isPyWs

/-- Trailing-whitespace removal, the right half of `str.strip()`. -/
def dropRightWs : List Char → List Char
  | [] => []
  | c :: t =>
    match dropRightWs t with
    | [] => if isPyWs c then [] else [c]
    | t' => c :: t'

/-- Python `str.strip()` on the ASCII fragment. -/
def stripChars (l : List Char) : List Char := dropRightWs (dropLeftWs l)

/-- Whether `pat` occurs as a contiguous substring, Python's `pat in s`. -/
def containsSub (pat : List Char) : List Char → Bool
  | [] => pat.isEmpty
  | c :: rest => pat.isPrefixOf (c :: rest) || containsSub pat rest

/-- Split around the first occurrence of `pat`: returns the text before it
and the text after it, or `none` when `pat` does not occur. -/
def splitFirstSub (pat : List Char) : List Char → Option (List Char × List Char)
  | [] => if pat.isEmpty then some ([], []) else none
  | c :: rest =>
    if pat.isPrefixOf (c :: rest) then some ([], (c :: rest).drop pat.length)
    else
      match splitFirstSub pat rest with
      | some (a, b) => some (c :: a, b)
      | none => none

/-- Text strictly after the first occurrence of `pat` (Python
`s.split(pat)[1]` truncated at the following occurrence is recovered by
composing with `beforeFirstSub`). -/
def afterFirstSub (pat l : List Char) : List Char :=
  match splitFirstSub pat l with
  | some (_, b) => b
  | none => l

/-- Text strictly before the first occurrence of `pat`, or all of `l` when
`pat` does not occur (Python `l.split(pat)[0]`). -/
def beforeFirstSub (pat l : List Char) : List Char :=
  match splitFirstSub pat l with
  | some (a, _) => a
  | none => l

/-- Candidate span of the greedy regex `\{.*\}` with `re.DOTALL`: from the
first `{` to the last `}` after it, `none` when no such span exists. -/
def braceSpan (l : List Char) : Option (List Char) :=
  let l1 := l.dropWhile (fun c => !(c = '{'))
  let r := l1.reverse.dropWhile (fun c => !(c = '}'))
  match r with
  | [] => none
  | _ => some r.reverse

/-- Whether the text ahead matches `\s*[}\]]`, the lookahead of the
trailing-comma repair regex. -/
def wsThenCloser (l : List Char) : Bool :=
  match l.dropWhile isPyWs with
  | c :: _ => c = '}' || c = ']'
  | [] => false

/-- The repair pass `re.sub(r',(\s*[}\]])', r'\1', raw)`: every comma
followed by optional whitespace and a closing brace or bracket is deleted.
(The emitted whitespace and closer contain no comma, so rescanning them, as
this recursion does, matches `re.sub`'s continue-after-match behaviour.) -/
def repairList : List Char → List Char
  | [] => []
  | c :: rest =>
    if c = ',' then
      if wsThenCloser rest then repairList rest else ',' :: repairList rest
    else c :: repairList rest

/-- Hexadecimal digit value, for `\uXXXX` escapes. -/
def hexVal (c : Char) : Option Nat :=
  if '0' ≤ c && c ≤ '9' then some (c.toNat - 48)
  else if 'a' ≤ c && c ≤ 'f' then some (c.toNat - 87)
  else if 'A' ≤ c && c ≤ 'F' then some (c.toNat - 55)
  else none

/-- Parse four hexadecimal digits into a code point value. -/
def hex4 : List Char → Option (Nat × List Char)
  | a :: b :: c :: d :: rest => do
    let x ← hexVal a
    let y ← hexVal b
    let z ← hexVal c
    let w ← hexVal d
    pure (((x * 16 + y) * 16 + z) * 16 + w, rest)
  | _ => none

/-- Single-character JSON escapes. -/
def escChar (c : Char) : Option Char :=
  if c = '"' then some '"'
  else if c = '\\' then some '\\'
  else if c = '/' then some '/'
  else if c = 'b' then some (Char.ofNat 8)
  else if c = 'f' then some (Char.ofNat 12)
  else if c = 'n' then some '\n'
  else if c = 'r' then some '\r'
  else if c = 't' then some '\t'
  else none

/-- Body of a JSON string literal, positioned just after the opening quote;
returns the decoded characters and the input after the closing quote.
Control characters are rejected (CPython's `strict=True` default);
surrogate pairs in `\u` escapes are combined. -/
def parseStringBody : Nat → List Char → Option (List Char × List Char)
  | 0, _ => none
  | Nat.succ f, l =>
    match l with
    | [] => none
    | c :: rest =>
      if c = '"' then some ([], rest)
      else if c = '\\' then
        match rest with
        | [] => none
        | e :: r2 =>
          if e = 'u' then
            match hex4 r2 with
            | none => none
            | some (code, r3) =>
              if 0xD800 ≤ code && code ≤ 0xDBFF then
                match r3 with
                | '\\' :: 'u' :: r4 =>
                  match hex4 r4 with
                  | some (lo, r5) =>
                    if 0xDC00 ≤ lo && lo ≤ 0xDFFF then
                      let ch := Char.ofNat (0x10000 + (code - 0xD800) * 0x400 + (lo - 0xDC00))
                      (parseStringBody f r5).map (fun p => (ch :: p.1, p.2))
                    else none
                  | none => none
                | _ => none
              else if 0xDC00 ≤ code && code ≤ 0xDFFF then none
              else (parseStringBody f r3).map (fun p => (Char.ofNat code :: p.1, p.2))
          else
            match escChar e with
            | some ch => (parseStringBody f r2).map (fun p => (ch :: p.1, p.2))
            | none => none
      else if c.toNat < 32 then none
      else (parseStringBody f rest).map (fun p => (c :: p.1, p.2))

/-- Integer part of the JSON number grammar `0|[1-9]\d*`, with sign handled
by the caller. -/
def parseIntPart : List Char → Option (List Char × List Char)
  | [] => none
  | c :: rest =>
    if c = '0' then some (['0'], rest)
    else if c.isDigit then
      some (c :: rest.takeWhile Char.isDigit, rest.dropWhile Char.isDigit)
    else none

/-- Optional fraction part `(\.\d+)?`; consumes nothing on no match. -/
def parseFracPart (l : List Char) : List Char × List Char :=
  match l with
  | '.' :: rest =>
    let d := rest.takeWhile Char.isDigit
    if d.isEmpty then ([], l) else ('.' :: d, rest.dropWhile Char.isDigit)
  | _ => ([], l)

/-- Optional exponent part `([eE][-+]?\d+)?`; consumes nothing on no match. -/
def parseExpPart (l : List Char) : List Char × List Char :=
  match l with
  | e :: rest =>
    if e = 'e' || e = 'E' then
      match rest with
      | s :: rest2 =>
        if s = '+' || s = '-' then
          let d := rest2.takeWhile Char.isDigit
          if d.isEmpty then ([], l) else (e :: s :: d, rest2.dropWhile Char.isDigit)
        else
          let d := rest.takeWhile Char.isDigit
          if d.isEmpty then ([], l) else (e :: d, rest.dropWhile Char.isDigit)
      | [] => ([], l)
    else ([], l)
  | [] => ([], l)

/-- Longest match of CPython's number regex
`(-?(?:0|[1-9]\d*))(\.\d+)?([eE][-+]?\d+)?`, returning the lexeme. -/
def parseNumber (l : List Char) : Option (List Char × List Char) :=
  let (sign, l1) := match l with
    | '-' :: r => (['-'], r)
    | _ => (([] : List Char), l)
  match parseIntPart l1 with
  | none => none
  | some (ip, l2) =>
    let (fp, l3) := parseFracPart l2
    let (ep, l4) := parseExpPart l3
    some (sign ++ ip ++ fp ++ ep, l4)

/-- Whitespace skipping between JSON tokens. -/
def skipWsJ (l : List Char) : List Char := l.dropWhile isJsonWs

/-- Python-dict insertion: an existing key keeps its position and takes the
new value, a fresh key is appended. -/
def insertPair : List (String × Json) → String → Json → List (String × Json)
  | [], k, v => [(k, v)]
  | (k', v') :: t, k, v =>
    if k' = k then (k', v) :: t else (k', v') :: insertPair t k v

mutual

/-- Recursive-descent JSON value, fuel-indexed so that it is structurally
recursive and evaluates inside the kernel. -/
def parseVal : Nat → List Char → Option (Json × List Char)
  | 0, _ => none
  | Nat.succ f, l =>
    match l with
    | [] => none
    | c :: rest =>
      if c = '{' then
        match skipWsJ rest with
        | '}' :: r => some (.obj [], r)
        | l1 => parseObjMembers f l1 []
      else if c = '[' then
        match skipWsJ rest with
        | ']' :: r => some (.arr [], r)
        | l1 => parseArrElems f l1 []
      else if c = '"' then
        match parseStringBody (rest.length + 1) rest with
        | some (cs, r) => some (.str ⟨cs⟩, r)
        | none => none
      else if c = 't' then
        if ['r', 'u', 'e'].isPrefixOf rest then some (.bool true, rest.drop 3) else none
      else if c = 'f' then
        if ['a', 'l', 's', 'e'].isPrefixOf rest then some (.bool false, rest.drop 4) else none
      else if c = 'n' then
        if ['u', 'l', 'l'].isPrefixOf rest then some (.null, rest.drop 3) else none
      else if c = 'N' then
        if ['a', 'N'].isPrefixOf rest then some (.num "NaN", rest.drop 2) else none
      else if c = 'I' then
        if "nfinity".data.isPrefixOf rest then some (.num "Infinity", rest.drop 7) else none
      else if c = '-' then
        if "Infinity".data.isPrefixOf rest then some (.num "-Infinity", rest.drop 8)
        else
          match parseNumber l with
          | some (lex, r) => some (.num ⟨lex⟩, r)
          | none => none
      else
        match parseNumber l with
        | some (lex, r) => some (.num ⟨lex⟩, r)
        | none => none

/-- Members of a JSON object after `{` (first member) or after a `,`. -/
def parseObjMembers : Nat → List Char → List (String × Json) → Option (Json × List Char)
  | 0, _, _ => none
  | Nat.succ f, l, acc =>
    match l with
    | '"' :: r =>
      match parseStringBody (r.length + 1) r with
      | some (kcs, r2) =>
        match skipWsJ r2 with
        | ':' :: r3 =>
          match parseVal f (skipWsJ r3) with
          | some (v, r4) =>
            let acc' := insertPair acc ⟨kcs⟩ v
            match skipWsJ r4 with
            | '}' :: r5 => some (.obj acc', r5)
            | ',' :: r5 => parseObjMembers f (skipWsJ r5) acc'
            | _ => none
          | none => none
        | _ => none
      | none => none
    | _ => none

/-- Elements of a JSON array, positioned at the start of a value. -/
def parseArrElems : Nat → List Char → List Json → Option (Json × List Char)
  | 0, _, _ => none
  | Nat.succ f, l, acc =>
    match parseVal f l with
    | some (v, r) =>
      match skipWsJ r with
      | ']' :: r2 => some (.arr (acc ++ [v]), r2)
      | ',' :: r2 => parseArrElems f (skipWsJ r2) (acc ++ [v])
      | _ => none
    | none => none

end

/-- Generic trailing-segment removal (counterpart of `List.dropWhile` at the
right end). -/
def dropRightWhile (p : Char → Bool) : List Char → List Char
  | [] => []
  | c :: t =>
    match dropRightWhile p t with
    | [] => if p c then [] else [c]
    | t' => c :: t'

/-- Surrounding whitespace accepted by `json.loads` itself (JSON whitespace
only, unlike `str.strip()`). -/
def jsonStrip (l : List Char) : List Char :=
  dropRightWhile isJsonWs (l.dropWhile isJsonWs)

/-- Model of `json.loads` on a character list: skip surrounding JSON
whitespace, parse one value, require the input to be exhausted. -/
def loadsChars (l : List Char) : Option Json :=
  let t := jsonStrip l
  match parseVal (4 * t.length + 16) t with
  | some (v, []) => some v
  | _ => none

/-- Model of `json.loads` on strings. -/
def pyJsonLoads (s : String) : Option Json := loadsChars s.data

/-- The markdown fence marker scanned for by `_parse_json`. -/
def fenceMarker : List Char := "```".data

/-- The json-tagged fence marker scanned for first by `_parse_json`. -/
def fenceJsonMarker : List Char := "```json".data

/-- Embedding of `_parse_json` from
`haystack-service/agents/resume_advisor_agent.py`: strip markdown fences,
take the greedy `\{.*\}` span, delete commas before closing braces or
brackets, parse; on failure parse the stripped remaining text.  `none`
models a `json.JSONDecodeError` propagating to the caller. -/
def parseJsonModel (s : String) : Option Json :=
  let l0 := s.data
  let content :=
    if containsSub fenceJsonMarker l0 then
      beforeFirstSub fenceMarker (afterFirstSub fenceJsonMarker l0)
    else if containsSub fenceMarker l0 then
      beforeFirstSub fenceMarker (afterFirstSub fenceMarker l0)
    else l0
  match braceSpan content with
  | some raw =>
    match loadsChars (repairList raw) with
    | some v => some v
    | none => loadsChars (stripChars content)
  | none => loadsChars (stripChars content)

mutual

/-- Modelled from the spec: the comment half of the repair pass described in
§4.1(d) of the specification — "removes `//`-style comments and commas
immediately before a closing brace/bracket" — which the source's
`_parse_json` does not implement (its `re.sub` removes only the commas).
Comment removal: from each `//` to the end of its line, the newline kept. -/
def specCommentStrip : List Char → List Char
  | [] => []
  | '/' :: '/' :: rest => specCommentSkip rest
  | c :: rest => c :: specCommentStrip rest

/-- Modelled from the spec: inside a `//` comment, drop characters up to the
end of the line. -/
def specCommentSkip : List Char → List Char
  | [] => []
  | c :: rest => if c = '\n' then c :: specCommentStrip rest else specCommentSkip rest

end

/-- Modelled from the spec: full §4.1(d) repair pass, comments removed and
then trailing commas removed. -/
def specRepairPass (l : List Char) : List Char :=
  repairList (specCommentStrip l)

example : pyJsonLoads "true" = some (.bool true) := rfl
example : pyJsonLoads "01" = none := rfl
example : pyJsonLoads (String.mk [' ', '{', '"', 'a', '"', ':', ' ', '1', '}', ' ']) =
    some (.obj [("a", .num "1")]) := rfl
example : pyJsonLoads (String.mk ['[', '1', ',', ' ', '-', '2', '.', '5', 'e', '3', ']']) =
    some (.arr [.num "1", .num "-2.5e3"]) := rfl
example : pyJsonLoads (String.mk ['{', '"', 'a', '"', ':', '1', ',', '}']) = none := rfl
example : pyJsonLoads (String.mk ['"', 'a', '\\', 'n', 'b', '"']) = some (.str "a\nb") := rfl
example : parseJsonModel (String.mk ['{', '"', 'a', '"', ':', '1', ',', '}']) =
    some (.obj [("a", .num "1")]) := rfl
example : parseJsonModel
      (String.mk (['n', 'o', 'i', 's', 'e', ' ', '{', '"', 'a', '"', ':', ' ']
        ++ ['[', '1', ',', '2', ',', ']', ',', '}', ' ', 't', 'a', 'i', 'l'])) =
    some (.obj [("a", .arr [.num "1", .num "2"])]) := rfl

/-- Identity block of the unified profile (`persona_manager.py` default
schema). -/
structure Identity where
  full_name : String := ""
  professional_title : String := ""
  summary : String := ""
  email : String := ""
  phone : String := ""
  location : String := ""
  linkedin : String := ""
  portfolio_url : String := ""

/-- Meta block of the unified profile. -/
structure Meta where
  created_at : String := ""
  updated_at : String := ""
  sources : List String := []

/-- Default `job_preferences` mapping of the empty schema. -/
def defaultPrefs : List (String × Json) :=
  [("target_roles", .arr []), ("target_locations", .arr []),
   ("remote_preference", .str "hybrid"), ("min_salary", .num "0")]

/-- The unified profile JSON document.  Experience, projects and education
entries are opaque JSON values here (the persona manager only replaces
those lists wholesale); `job_preferences` is an insertion-ordered
key/value mapping. -/
structure Profile where
  identity : Identity := {}
  skills : List String := []
  experience : List Json := []
  projects : List Json := []
  education : List Json := []
  goals : List String := []
  job_preferences : List (String × Json) := defaultPrefs
  meta : Meta := {}

/-- A `PersonaManager`: the in-memory profile plus the content of
`unified_profile.json` on disk (`none` before the first save). -/
structure PMState where
  profile : Profile
  disk : Option Profile := none

/-- `PersonaManager.save`: stamp `meta.updated_at` and write through to
disk (write errors are caught and only logged in the source; the model
takes the successful write). -/
def pmSave (st : PMState) (now : String) : PMState :=
  let p := { st.profile with meta := { st.profile.meta with updated_at := now } }
  ⟨p, some p⟩

/-- `PersonaManager._add_source`: append once. -/
def addSource (sources : List String) (name : String) : List String :=
  if name ∈ sources then sources else sources ++ [name]

/-- Python truthiness on an optional string: a missing key and the empty
string are both falsy. -/
def truthyStr : Option String → Option String
  | some s => if s = "" then none else some s
  | none => none

/-- Effective value of `d.get(k1) or d.get(k2)` under a truthiness test:
the first truthy value, if any. -/
def firstTruthyStr (a b : Option String) : Option String :=
  match truthyStr a with
  | some v => some v
  | none => truthyStr b

/-- Python truthiness on an optional list: missing key and `[]` are falsy. -/
def truthyListS : Option (List String) → Option (List String)
  | some l => if l.isEmpty then none else some l
  | none => none

/-- Truthiness on an optional list of JSON entries. -/
def truthyListJ : Option (List Json) → Option (List Json)
  | some l => if l.isEmpty then none else some l
  | none => none

/-- First truthy of two optional JSON-entry lists. -/
def firstTruthyListJ (a b : Option (List Json)) : Option (List Json) :=
  match truthyListJ a with
  | some l => some l
  | none => truthyListJ b

/-- A parsed-resume payload as read by `ingest_resume_data`: each field is
the value under the corresponding dictionary key, `none` when the key is
missing. -/
structure ResumeData where
  full_name : Option String := none
  name : Option String := none
  professional_title : Option String := none
  title : Option String := none
  email : Option String := none
  phone : Option String := none
  location : Option String := none
  linkedin : Option String := none
  portfolio_url : Option String := none
  summary : Option String := none
  top_skills : Option (List String) := none
  skills : Option (List String) := none
  experience_highlights : Option (List Json) := none
  experience : Option (List Json) := none
  education : Option (List Json) := none
  projects : Option (List Json) := none

/-- The truthy skill list `resume_data.get("top_skills") or
resume_data.get("skills")` that `ingest_resume_data` installs when present:
`none` when both keys are missing or empty. -/
def resumeSkillsOpt (d : ResumeData) : Option (List String) :=
  match truthyListS d.top_skills with
  | some l => some l
  | none => truthyListS d.skills

/-- `PersonaManager.ingest_resume_data`: identity fields are overwritten
when the resume value is truthy (each `if value: profile[...] = value`
becomes an `Option.getD`); skills, experience, education and projects lists
are replaced when truthy; then `_add_source("resume")` and `save`. -/
def ingestResumeData (st : PMState) (d : ResumeData) (now : String) : PMState :=
  let p := st.profile
  let idn := p.identity
  let p := { p with
    identity := { idn with
      full_name := (firstTruthyStr d.full_name d.name).getD idn.full_name,
      professional_title :=
        (firstTruthyStr d.professional_title d.title).getD idn.professional_title,
      email := (truthyStr d.email).getD idn.email,
      phone := (truthyStr d.phone).getD idn.phone,
      location := (truthyStr d.location).getD idn.location,
      linkedin := (truthyStr d.linkedin).getD idn.linkedin,
      portfolio_url := (truthyStr d.portfolio_url).getD idn.portfolio_url,
      summary := (truthyStr d.summary).getD idn.summary },
    skills := (resumeSkillsOpt d).getD p.skills,
    experience := (firstTruthyListJ d.experience_highlights d.experience).getD p.experience,
    education := (truthyListJ d.education).getD p.education,
    projects := (truthyListJ d.projects).getD p.projects }
  let p := { p with meta := { p.meta with sources := addSource p.meta.sources "resume" } }
  pmSave ⟨p, st.disk⟩ now

/-- Model of `list(set(l))`: exact-string deduplication.  Python's set
iteration order is unspecified, so the model fixes a canonical order; it is
faithful up to set equality (membership and duplicate-freedom, which is all
the persona code and the claims depend on). -/
def setList : List String → List String
  | [] => []
  | x :: xs => if x ∈ xs then setList xs else x :: setList xs

/-- Model of `s = set(old); s.update(new); list(s)`. -/
def setUnion (old new : List String) : List String := setList (old ++ new)

/-- Replace the value at the first occurrence of a key. -/
def setAssoc : List (String × Json) → String → Json → List (String × Json)
  | [], _, _ => []
  | (k', v') :: t, k, v =>
    if k' = k then (k', v) :: t else (k', v') :: setAssoc t k v

/-- The `update_preferences` loop: for each item, overwrite the value only
when the key already exists in `job_preferences`. -/
def updatePrefsList (prefs entries : List (String × Json)) : List (String × Json) :=
  entries.foldl
    (fun acc kv => if acc.any (fun p => p.1 = kv.1) then setAssoc acc kv.1 kv.2 else acc)
    prefs

/-- Chat-derived update payload as read by `update_from_chat`: `goals` and
`skills` are the (list-valued) entries read via `data.get(_, [])`, and
`entries` is the `data.items()` sequence iterated by the preferences
branch. -/
structure ChatData where
  goals : List String := []
  skills : List String := []
  entries : List (String × Json) := []

/-- `PersonaManager.update_from_chat`: set-union for goals and skills,
guarded shallow overwrite for preferences, no data change for any other
intent; always `_add_source("chat")` and `save`. -/
def updateFromChat (st : PMState) (intent : String) (data : ChatData) (now : String) : PMState :=
  let p := st.profile
  let p :=
    if intent = "update_goals" then { p with goals := setUnion p.goals data.goals }
    else if intent = "update_skills" then { p with skills := setUnion p.skills data.skills }
    else if intent = "update_preferences" then
      { p with job_preferences := updatePrefsList p.job_preferences data.entries }
    else p
  let p := { p with meta := { p.meta with sources := addSource p.meta.sources "chat" } }
  pmSave ⟨p, st.disk⟩ now

/-- The five agent identifiers, the keys of `HaystackWorkflow.agents` and
the `valid_agents` list of `SupervisorAgent.run`. -/
def validAgents : List String := ["profile", "skills_gap", "job_search", "resume", "learning"]

/-- Python `str.lower()` on the ASCII fragment. -/
def pyLower (l : List Char) : List Char := l.map Char.toLower

/-- `any(kw in message for kw in pats)`. -/
def containsAny (l : List Char) (pats : List String) : Bool :=
  pats.any (fun p => containsSub p.data l)

/-- The deterministic keyword scan of `HaystackWorkflow.ainvoke`, in source
order: resume, job_search, learning, skills_gap; `none` when nothing
matches. -/
def wfKeywordRoute (msgLower : List Char) : Option String :=
  if containsAny msgLower ["resume", "cv", "review my"] then some "resume"
  else if containsAny msgLower ["job", "apply", "search"] then some "job_search"
  else if containsAny msgLower ["learn", "course", "certif"] then some "learning"
  else if containsAny msgLower ["skills", "gap", "missing"] then some "skills_gap"
  else none

/-- `response.content.strip().lower().replace("'", "").replace('"', "")`
from `SupervisorAgent.run`. -/
def supClean (reply : String) : String :=
  ⟨(pyLower (stripChars reply.data)).filter
      (fun c => !(c = Char.ofNat 39 || c = '"'))⟩

/-- The supervisor's keyword fallback, in the dict's insertion order. -/
def supKeywordFallback (msgLower : List Char) : Option String :=
  if containsAny msgLower ["resume", "cv", "ats", "application"] then some "resume"
  else if containsAny msgLower ["skill", "learn", "technology", "programming", "language"] then
    some "skills_gap"
  else if containsAny msgLower ["job", "hire", "interview", "salary", "company"] then
    some "job_search"
  else if containsAny msgLower ["course", "tutorial", "certification", "study", "class"] then
    some "learning"
  else if containsAny msgLower ["career", "transition", "path", "switch"] then some "profile"
  else none

/-- `SupervisorAgent.run` (`ai-service/agents/supervisor.py`), the
supervisor implementation present under the sources; the haystack-service
workflow imports an identically-named agent.  The model call
`self.llm.ainvoke` is abstracted as `modelReply`; it is not guarded by any
`try`, so `none` (a transport/timeout exception) propagates, which the
result `none` models. -/
def supervisorRun (modelReply : Option String) (lastMessage : String) : Option String :=
  modelReply.map fun content =>
    let decision := supClean content
    if decision ∈ validAgents then decision
    else
      match supKeywordFallback (pyLower lastMessage.data) with
      | some a => a
      | none => "profile"

/-- The final guard of `ainvoke`:
`if not active_agent or active_agent not in self.agents`. -/
def validateAgent (a : String) : String :=
  if a = "" ∨ a ∉ validAgents then "profile" else a

/-- Routing phase of `HaystackWorkflow.ainvoke`: deterministic keyword scan
over the lowercased last message, supervisor fallback, membership guard.
`messages` carries the `content` of each chat message; `none` models an
exception propagating out of the supervisor call. -/
def ainvokeRoute (messages : List String) (modelReply : Option String) : Option String :=
  match wfKeywordRoute (pyLower ((messages.getLast?).getD "").data) with
  | some a => some (validateAgent a)
  | none => (supervisorRun modelReply ((messages.getLast?).getD "")).map validateAgent

/-- A workflow streaming event as consumed by the `/chat/stream` generator:
`kind` is `event["event"]`, `node` the `langgraph_node` metadata (`""` when
missing), `outActive` the `active_agent` entry of `event["data"]["output"]`
when that output is a dict carrying one, and `chunkContent` the
`event["data"]["chunk"].content` payload. -/
structure WEvent where
  kind : String
  node : String
  outActive : Option String := none
  chunkContent : String := ""

/-- The typed SSE frames emitted by `chat_stream` in
`haystack-service/main.py` (`json.dumps({'type': ...})`). -/
inductive Frame where
  | start : Frame
  | agent (name : String) : Frame
  | chunk (content : String) : Frame
  | done (response : String) : Frame
  | error (msg : String) : Frame
  | complete : Frame

/-- One iteration of the `async for event in workflow.astream_events` loop:
accumulated (frames, response_text, active_agent). -/
def stepEvent (acc : List Frame × String × String) (e : WEvent) :
    List Frame × String × String :=
  let fs := acc.1
  let resp := acc.2.1
  let act := acc.2.2
  let fsAct : List Frame × String :=
    if e.kind = "on_chain_end" ∧ e.node = "supervisor" then
      match e.outActive with
      | some a => (fs ++ [Frame.agent a], a)
      | none => (fs, act)
    else (fs, act)
  if e.kind = "on_chat_model_stream" ∧ ¬(e.node = "") ∧ ¬(e.node = "supervisor") then
    if e.chunkContent = "" then (fsAct.1, resp, fsAct.2)
    else (fsAct.1 ++ [Frame.chunk e.chunkContent], resp ++ e.chunkContent, fsAct.2)
  else (fsAct.1, resp, fsAct.2)

/-- The event loop of the `generate()` coroutine. -/
def processEvents (events : List WEvent) : List Frame × String × String :=
  events.foldl stepEvent ([], "", "unknown")

/-- Frames produced on the `/chat/stream` response.  On a cache hit,
`send_cached` emits exactly one `complete` frame.  Otherwise `generate()`
emits `start`, the loop frames, and `done`/`error`; `failAfter = some (k,
msg)` models an exception raised after `k` loop events (caught by the outer
handler, which emits a final `error` frame). -/
def chatStreamFrames (cached : Option String) (events : List WEvent)
    (failAfter : Option (Nat × String)) : List Frame :=
  match cached with
  | some _ => [Frame.complete]
  | none =>
    match failAfter with
    | some (k, msg) =>
      Frame.start :: (processEvents (events.take k)).1 ++ [Frame.error msg]
    | none =>
      let r := processEvents events
      Frame.start :: r.1 ++
        [if r.2.1 = "" then Frame.error "No response generated"
         else Frame.done r.2.1]

/-- In-memory model of the Redis key space touched by `ResponseCache`:
key, value, remaining TTL. -/
abbrev RedisStore := List (String × String × Nat)

/-- `ResponseCache` state: `redis` is `None` when the connection failed at
construction, in which case `self.ttl` was never assigned either. -/
structure ResponseCacheState where
  redis : Option RedisStore
  ttl : Option Nat

/-- `ResponseCache.__init__`: on a connection/ping failure the exception is
caught, `self.redis` is set to `None` and `self.ttl` stays unset. -/
def initResponseCache (conn : Option RedisStore) : ResponseCacheState :=
  match conn with
  | some store => ⟨some store, some 86400⟩
  | none => ⟨none, none⟩

/-- `ResponseCache._generate_key`.  The md5 hex digest is modelled by an
injective stand-in (the normalised query itself); digest collisions are out
of scope of the claims. -/
def generateKey (agent query : String) : String :=
  ⟨"response:".data ++ agent.data ++ ":".data ++ stripChars (pyLower query.data)⟩

/-- `ResponseCache.get`: `None` without touching the store when the
connection is absent; an empty cached string is falsy and reported as a
miss. -/
def cacheGet (c : ResponseCacheState) (agent query : String) : Option String :=
  match c.redis with
  | none => none
  | some store =>
    match (store.find? (fun kv => kv.1 = generateKey agent query)).map (fun kv => kv.2.1) with
    | some v => if v = "" then none else some v
    | none => none

/-- `SETEX`: store the value under the key with the given TTL. -/
def setexModel : RedisStore → String → Nat → String → RedisStore
  | [], k, t, v => [(k, v, t)]
  | kv :: rest, k, t, v =>
    if kv.1 = k then (k, v, t) :: rest else kv :: setexModel rest k t v

/-- `ResponseCache.set`: a no-op when the connection is absent. -/
def cacheSet (c : ResponseCacheState) (agent query response : String) : ResponseCacheState :=
  match c.redis, c.ttl with
  | some store, some t => ⟨some (setexModel store (generateKey agent query) t response), c.ttl⟩
  | some _, none => c
  | none, _ => c

/-- `ResponseCache.clear`: delete every `response:*` key; a no-op when the
connection is absent. -/
def cacheClear (c : ResponseCacheState) : ResponseCacheState :=
  match c.redis with
  | none => c
  | some store =>
    ⟨some (store.filter (fun kv => !(("response:".data).isPrefixOf kv.1.data))), c.ttl⟩

/-- No comma of `pre` begins a match of the repair regex once `pre` is
followed by the final `,}` — the computational reading of "exactly one
trailing comma immediately before the closing brace". -/
def noPatWithSuffix : List Char → Bool
  | [] => true
  | c :: r =>
    if c = ',' then !(wsThenCloser (r ++ [',', '}'])) && noPatWithSuffix r
    else noPatWithSuffix r

lemma containsSub_nil (l : List Char) : containsSub [] l = true := by
  cases l <;> simp [containsSub, List.isPrefixOf]

lemma containsSub_of_decomp (pat : List Char) :
    ∀ (a b l : List Char), l = a ++ (pat ++ b) → containsSub pat l = true := by
  intro a
  induction a with
  | nil =>
    intro b l hl
    subst hl
    match pat with
    | [] => exact containsSub_nil b
    | p :: pt =>
      show containsSub (p :: pt) (p :: (pt ++ b)) = true
      have hpre : (p :: pt).isPrefixOf (p :: (pt ++ b)) = true := by
        rw [List.isPrefixOf_iff_prefix]
        exact ⟨b, by simp⟩
      simp [containsSub, hpre]
  | cons c a' ih =>
    intro b l hl
    subst hl
    show containsSub pat (c :: (a' ++ (pat ++ b))) = true
    simp [containsSub, ih b _ rfl]

lemma containsSub_exists {pat l : List Char} (h : containsSub pat l = true) :
    ∃ a b, l = a ++ (pat ++ b) := by
  induction l with
  | nil =>
    refine ⟨[], [], ?_⟩
    simp [containsSub] at h
    simp [h]
  | cons c rest ih =>
    rw [containsSub, Bool.or_eq_true] at h
    rcases h with h | h
    · rw [List.isPrefixOf_iff_prefix] at h
      obtain ⟨t, ht⟩ := h
      exact ⟨[], t, by simp [← ht]⟩
    · obtain ⟨a, b, hab⟩ := ih h
      exact ⟨c :: a, b, by simp [hab]⟩

lemma containsSub_trans {p m l : List Char} (h1 : containsSub p m = true)
    (h2 : containsSub m l = true) : containsSub p l = true := by
  obtain ⟨a1, b1, hm⟩ := containsSub_exists h1
  obtain ⟨a2, b2, hl⟩ := containsSub_exists h2
  subst hm
  exact containsSub_of_decomp p (a2 ++ a1) (b1 ++ b2) l (by simp [hl])

lemma not_containsSub_fenceJson {l : List Char}
    (h : containsSub fenceMarker l = false) :
    containsSub fenceJsonMarker l = false := by
  cases hj : containsSub fenceJsonMarker l with
  | false => rfl
  | true =>
    have : containsSub fenceMarker l = true :=
      containsSub_trans (p := fenceMarker) (by decide) hj
    rw [this] at h
    cases h

lemma dropWhile_append_of_all {p : Char → Bool} :
    ∀ {a b : List Char}, a.all p = true → (a ++ b).dropWhile p = b.dropWhile p := by
  intro a
  induction a with
  | nil => intro b _; rfl
  | cons x a' ih =>
    intro b h
    rw [List.all_cons, Bool.and_eq_true] at h
    simp [List.dropWhile, h.1, ih h.2]

lemma dropWhile_cons_false {p : Char → Bool} {c : Char} {t : List Char}
    (h : p c = false) : (c :: t).dropWhile p = c :: t := by
  simp [List.dropWhile, h]

lemma dropRightWhile_eq_nil_of_all {p : Char → Bool} :
    ∀ {b : List Char}, b.all p = true → dropRightWhile p b = [] := by
  intro b
  induction b with
  | nil => intro _; rfl
  | cons c t ih =>
    intro h
    rw [List.all_cons, Bool.and_eq_true] at h
    rw [dropRightWhile, ih h.2, h.1]
    simp

lemma dropRightWhile_append_of_all {p : Char → Bool} {b : List Char}
    (hb : b.all p = true) :
    ∀ (a : List Char), dropRightWhile p (a ++ b) = dropRightWhile p a := by
  intro a
  induction a with
  | nil => simpa using dropRightWhile_eq_nil_of_all hb
  | cons x a' ih =>
    show dropRightWhile p (x :: (a' ++ b)) = dropRightWhile p (x :: a')
    rw [dropRightWhile, ih, dropRightWhile]

lemma dropRightWhile_concat_false {p : Char → Bool} {c : Char}
    (hc : p c = false) : ∀ (a : List Char), dropRightWhile p (a ++ [c]) = a ++ [c] := by
  intro a
  induction a with
  | nil =>
    show dropRightWhile p [c] = [c]
    rw [dropRightWhile, dropRightWhile, hc]
    simp
  | cons x a' ih =>
    show dropRightWhile p (x :: (a' ++ [c])) = x :: (a' ++ [c])
    rw [dropRightWhile, ih]
    cases hE : a' ++ [c] with
    | nil => simp at hE
    | cons y ys => rfl

lemma jsonWs_not_openBrace {c : Char} (h : isJsonWs c = true) :
    (decide (c = '{')) = false := by
  simp only [isJsonWs, Bool.or_eq_true, decide_eq_true_eq] at h
  rcases h with ((h | h) | h) | h <;> subst h <;> decide

lemma jsonWs_not_closeBrace {c : Char} (h : isJsonWs c = true) :
    (decide (c = '}')) = false := by
  simp only [isJsonWs, Bool.or_eq_true, decide_eq_true_eq] at h
  rcases h with ((h | h) | h) | h <;> subst h <;> decide

lemma all_imp {α : Type} {p q : α → Bool} (hpq : ∀ c, p c = true → q c = true) :
    ∀ {l : List α}, l.all p = true → l.all q = true := by
  intro l
  induction l with
  | nil => intro _; rfl
  | cons c t ih =>
    intro h
    rw [List.all_cons, Bool.and_eq_true] at h
    rw [List.all_cons, hpq c h.1, ih h.2]
    rfl

lemma all_reverse_of_all {p : Char → Bool} {l : List Char} (h : l.all p = true) :
    l.reverse.all p = true := by
  induction l with
  | nil => rfl
  | cons c t ih =>
    rw [List.all_cons, Bool.and_eq_true] at h
    rw [List.reverse_cons, List.all_append, ih h.2, List.all_cons, h.1]
    rfl

/-- Surrounding JSON whitespace around a brace-delimited body is stripped
exactly. -/
lemma jsonStrip_decomp (wsa mid wsb : List Char)
    (hwa : wsa.all isJsonWs = true) (hwb : wsb.all isJsonWs = true) :
    jsonStrip (wsa ++ ('{' :: mid ++ ['}']) ++ wsb) = '{' :: mid ++ ['}'] := by
  unfold jsonStrip
  rw [List.append_assoc, dropWhile_append_of_all hwa]
  rw [show ('{' :: mid ++ ['}']) ++ wsb = '{' :: (mid ++ ['}'] ++ wsb) by simp]
  rw [dropWhile_cons_false (by decide)]
  rw [show '{' :: (mid ++ ['}'] ++ wsb) = (('{' :: mid) ++ ['}']) ++ wsb by simp]
  rw [dropRightWhile_append_of_all hwb, dropRightWhile_concat_false (by decide)]

/-- A body already delimited by braces strips to itself. -/
lemma jsonStrip_self (mid : List Char) :
    jsonStrip ('{' :: mid ++ ['}']) = '{' :: mid ++ ['}'] := by
  have := jsonStrip_decomp [] mid [] rfl rfl
  simpa using this

/-- The greedy `\{.*\}` span of a brace-delimited body surrounded by JSON
whitespace is exactly that body. -/
lemma braceSpan_decomp (wsa mid wsb : List Char)
    (hwa : wsa.all isJsonWs = true) (hwb : wsb.all isJsonWs = true) :
    braceSpan (wsa ++ ('{' :: mid ++ ['}']) ++ wsb) = some ('{' :: mid ++ ['}']) := by
  have hwa' : wsa.all (fun c => !(c = '{')) = true :=
    all_imp (fun c hc => by rw [Bool.not_eq_true', jsonWs_not_openBrace hc]) hwa
  have hwb' : wsb.reverse.all (fun c => !(c = '}')) = true :=
    all_reverse_of_all
      (all_imp (fun c hc => by rw [Bool.not_eq_true', jsonWs_not_closeBrace hc]) hwb)
  have h1 : List.dropWhile (fun c => !(c = '{')) (wsa ++ ('{' :: mid ++ ['}']) ++ wsb)
      = '{' :: (mid ++ ['}'] ++ wsb) := by
    rw [List.append_assoc, dropWhile_append_of_all hwa',
      show ('{' :: mid ++ ['}']) ++ wsb = '{' :: (mid ++ ['}'] ++ wsb) by simp,
      dropWhile_cons_false (by decide)]
  have h2 : List.dropWhile (fun c => !(c = '}')) ('{' :: (mid ++ ['}'] ++ wsb)).reverse
      = '}' :: ('{' :: mid).reverse := by
    rw [show ('{' :: (mid ++ ['}'] ++ wsb)).reverse
          = wsb.reverse ++ ('}' :: ('{' :: mid).reverse) by simp,
      dropWhile_append_of_all hwb', dropWhile_cons_false (by decide)]
  simp only [braceSpan, h1, h2]
  simp

/-- When no comma of `pre` begins a repair-regex match in `pre ++ [',', '}']`,
the repair pass deletes exactly the final trailing comma. -/
lemma repairList_single_trailing :
    ∀ (pre : List Char), noPatWithSuffix pre = true →
      repairList (pre ++ [',', '}']) = pre ++ ['}'] := by
  intro pre
  induction pre with
  | nil =>
    intro _
    show repairList [',', '}'] = ['}']
    rfl
  | cons c pre' ih =>
    intro h
    rw [noPatWithSuffix] at h
    by_cases hc : c = ','
    · rw [if_pos hc, Bool.and_eq_true, Bool.not_eq_true'] at h
      subst hc
      show repairList (',' :: (pre' ++ [',', '}'])) = ',' :: (pre' ++ ['}'])
      rw [repairList, if_pos rfl, h.1, ih h.2]
      simp
    · rw [if_neg hc] at h
      show repairList (c :: (pre' ++ [',', '}'])) = c :: (pre' ++ ['}'])
      rw [repairList, if_neg hc, ih h]

lemma mem_setList {x : String} : ∀ {l : List String}, x ∈ setList l ↔ x ∈ l := by
  intro l
  induction l with
  | nil => simp [setList]
  | cons y ys ih =>
    rw [setList]
    by_cases hy : y ∈ ys
    · rw [if_pos hy, ih]
      constructor
      · intro h; exact List.mem_cons_of_mem y h
      · intro h
        rcases List.mem_cons.mp h with h | h
        · subst h; exact hy
        · exact h
    · rw [if_neg hy]
      constructor
      · intro h
        rcases List.mem_cons.mp h with h | h
        · subst h; exact List.mem_cons_self x ys
        · exact List.mem_cons_of_mem y (ih.mp h)
      · intro h
        rcases List.mem_cons.mp h with h | h
        · subst h; exact List.mem_cons_self x (setList ys)
        · exact List.mem_cons_of_mem y (ih.mpr h)

lemma setList_nodup : ∀ (l : List String), (setList l).Nodup := by
  intro l
  induction l with
  | nil => exact List.nodup_nil
  | cons x xs ih =>
    rw [setList]
    by_cases hx : x ∈ xs
    · rw [if_pos hx]; exact ih
    · rw [if_neg hx]
      refine List.Nodup.cons ?_ ih
      intro hmem
      exact hx (mem_setList.mp hmem)

/-- Membership in the frame-type set named by the specification:
start, agent, chunk, done, error. -/
def claimedFrameType : Frame → Bool
  | .complete => false
  | _ => true

/-- Frames that the event loop itself can emit. -/
def isLoopFrame : Frame → Bool
  | .agent _ => true
  | .chunk _ => true
  | _ => false

/-- Whether an optional frame is a `done` or `error` frame. -/
def isDoneOrErrorO : Option Frame → Bool
  | some (.done _) => true
  | some (.error _) => true
  | _ => false

/-- Whether a frame list is terminated by a `done` or `error` frame. -/
def endsDoneOrError (fs : List Frame) : Bool :=
  isDoneOrErrorO fs.getLast?

lemma stepEvent_loopFrames (acc : List Frame × String × String) (e : WEvent)
    (h : acc.1.all isLoopFrame = true) : (stepEvent acc e).1.all isLoopFrame = true := by
  unfold stepEvent
  repeat' split
  all_goals simp_all [List.all_append, isLoopFrame]

lemma foldl_stepEvent_loopFrames (events : List WEvent) :
    ∀ (acc : List Frame × String × String), acc.1.all isLoopFrame = true →
      (events.foldl stepEvent acc).1.all isLoopFrame = true := by
  induction events with
  | nil => intro acc h; exact h
  | cons e es ih =>
    intro acc h
    exact ih (stepEvent acc e) (stepEvent_loopFrames acc e h)

lemma processEvents_loopFrames (events : List WEvent) :
    (processEvents events).1.all isLoopFrame = true :=
  foldl_stepEvent_loopFrames events ([], "", "unknown") rfl

lemma loopFrame_claimed {f : Frame} (h : isLoopFrame f = true) :
    claimedFrameType f = true := by
  cases f <;> simp_all [isLoopFrame, claimedFrameType]

lemma getLast_cons_append (a x : Frame) (fs : List Frame) :
    ((a :: fs) ++ [x]).getLast? = some x :=
  List.getLast?_concat _

lemma validateAgent_mem (a : String) : validateAgent a ∈ validAgents := by
  unfold validateAgent
  split
  · decide
  · next h =>
    push_neg at h
    exact h.2

/-- C8: when the Redis connection failed at construction (`self.redis =
None`), every `get` returns `None`, `set` and `clear` are no-ops leaving
the cache state unchanged, and — all operations being total functions that
short-circuit before touching the store — no cache operation raises. -/
theorem cache_degraded_permanent_miss (agent query v : String) :
    cacheGet (initResponseCache none) agent query = none ∧
    cacheSet (initResponseCache none) agent query v = initResponseCache none ∧
    cacheClear (initResponseCache none) = initResponseCache none :=
  ⟨rfl, rfl, rfl⟩

/-- C10: for any intent other than `update_goals`, `update_skills` and
`update_preferences`, `update_from_chat` leaves skills, goals, experience,
education and job_preferences unchanged, still appends `"chat"` to
`meta.sources` (once), stamps `meta.updated_at`, and persists the profile. -/
theorem update_from_chat_unknown_intent_frame (st : PMState) (intent : String)
    (data : ChatData) (now : String)
    (h1 : intent ≠ "update_goals") (h2 : intent ≠ "update_skills")
    (h3 : intent ≠ "update_preferences") :
    (updateFromChat st intent data now).profile.skills = st.profile.skills ∧
    (updateFromChat st intent data now).profile.goals = st.profile.goals ∧
    (updateFromChat st intent data now).profile.experience = st.profile.experience ∧
    (updateFromChat st intent data now).profile.education = st.profile.education ∧
    (updateFromChat st intent data now).profile.job_preferences = st.profile.job_preferences ∧
    (updateFromChat st intent data now).profile.meta.sources
      = addSource st.profile.meta.sources "chat" ∧
    (updateFromChat st intent data now).profile.meta.updated_at = now ∧
    (updateFromChat st intent data now).disk = some (updateFromChat st intent data now).profile := by
  unfold updateFromChat pmSave
  simp [h1, h2, h3]

/-- Witness for `update_from_chat_unknown_intent_frame` at the intent
`"smalltalk"` on the empty profile. -/
theorem update_from_chat_unknown_intent_frame_witness :
    (updateFromChat ⟨{}, none⟩ "smalltalk" {} "t1").profile.meta.updated_at = "t1" ∧
    (updateFromChat ⟨{}, none⟩ "smalltalk" {} "t1").profile.skills = [] := by
  have h := update_from_chat_unknown_intent_frame ⟨{}, none⟩ "smalltalk" {} "t1"
    (by decide) (by decide) (by decide)
  exact ⟨h.2.2.2.2.2.2.1, h.1⟩

/-- C2 counterexample: a persona already holding the skill `"Rust"` that
ingests a resume with skills `["Python"]` ends with skills exactly
`["Python"]` — the previous skill `"Rust"` is dropped, not unioned in,
contradicting the claimed union semantics. -/
theorem ingest_resume_counterexample :
    "Rust" ∈ (⟨{ skills := ["Rust"] }, none⟩ : PMState).profile.skills ∧
    (ingestResumeData ⟨{ skills := ["Rust"] }, none⟩
        { skills := some ["Python"] } "t1").profile.skills = ["Python"] ∧
    "Rust" ∉ (ingestResumeData ⟨{ skills := ["Rust"] }, none⟩
        { skills := some ["Python"] } "t1").profile.skills := by
  refine ⟨by simp, rfl, ?_⟩
  intro h
  rw [show (ingestResumeData ⟨{ skills := ["Rust"] }, none⟩
      { skills := some ["Python"] } "t1").profile.skills = ["Python"] from rfl] at h
  simp at h

/-- C2 amended: when the resume payload carries a truthy skill list,
`ingest_resume_data` replaces the persona's skills with the resume-derived
list (no union with the previous skills), while identity, experience and
education are overwritten exactly when the corresponding resume-derived
value is present (truthy) and kept otherwise. -/
theorem ingest_resume_replaces_skills (st : PMState) (d : ResumeData) (now : String)
    (sk : List String) (hsk : resumeSkillsOpt d = some sk) :
    (ingestResumeData st d now).profile.skills = sk ∧
    (∀ v, firstTruthyStr d.full_name d.name = some v →
      (ingestResumeData st d now).profile.identity.full_name = v) ∧
    (firstTruthyStr d.full_name d.name = none →
      (ingestResumeData st d now).profile.identity.full_name
        = st.profile.identity.full_name) ∧
    (∀ l, firstTruthyListJ d.experience_highlights d.experience = some l →
      (ingestResumeData st d now).profile.experience = l) ∧
    (firstTruthyListJ d.experience_highlights d.experience = none →
      (ingestResumeData st d now).profile.experience = st.profile.experience) ∧
    (∀ l, truthyListJ d.education = some l →
      (ingestResumeData st d now).profile.education = l) ∧
    (truthyListJ d.education = none →
      (ingestResumeData st d now).profile.education = st.profile.education) := by
  refine ⟨?_, ?_, ?_, ?_, ?_, ?_, ?_⟩
  · show (resumeSkillsOpt d).getD st.profile.skills = sk
    rw [hsk]; rfl
  · intro v hv
    show (firstTruthyStr d.full_name d.name).getD st.profile.identity.full_name = v
    rw [hv]; rfl
  · intro hv
    show (firstTruthyStr d.full_name d.name).getD st.profile.identity.full_name
      = st.profile.identity.full_name
    rw [hv]; rfl
  · intro l hl
    show (firstTruthyListJ d.experience_highlights d.experience).getD st.profile.experience = l
    rw [hl]; rfl
  · intro hl
    show (firstTruthyListJ d.experience_highlights d.experience).getD st.profile.experience
      = st.profile.experience
    rw [hl]; rfl
  · intro l hl
    show (truthyListJ d.education).getD st.profile.education = l
    rw [hl]; rfl
  · intro hl
    show (truthyListJ d.education).getD st.profile.education = st.profile.education
    rw [hl]; rfl

/-- Witness for `ingest_resume_replaces_skills` on a concrete payload. -/
theorem ingest_resume_replaces_skills_witness :
    (ingestResumeData ⟨{ skills := ["Rust"] }, none⟩
        { skills := some ["Python"], education := some [Json.str "BSc"] } "t1").profile.skills
      = ["Python"] ∧
    (ingestResumeData ⟨{ skills := ["Rust"] }, none⟩
        { skills := some ["Python"], education := some [Json.str "BSc"] } "t1").profile.education
      = [Json.str "BSc"] := by
  have h := ingest_resume_replaces_skills ⟨{ skills := ["Rust"] }, none⟩
    { skills := some ["Python"], education := some [Json.str "BSc"] } "t1" ["Python"] rfl
  exact ⟨h.1, h.2.2.2.2.2.1 [Json.str "BSc"] rfl⟩

/-- C3 counterexample: ingesting `{"skills": ["Python"]}` and then applying
the chat update `{"skills": ["python", "Go"]}` leaves both `"Python"` and
`"python"` in the skill list — two entries equal ignoring case — because the
set union of `update_from_chat` compares exact strings. -/
theorem persona_skills_case_counterexample :
    "Python" ∈ (updateFromChat (ingestResumeData ⟨{}, none⟩ { skills := some ["Python"] } "t1")
        "update_skills" { skills := ["python", "Go"] } "t2").profile.skills ∧
    "python" ∈ (updateFromChat (ingestResumeData ⟨{}, none⟩ { skills := some ["Python"] } "t1")
        "update_skills" { skills := ["python", "Go"] } "t2").profile.skills ∧
    "Python" ≠ "python" ∧
    pyLower "Python".data = pyLower "python".data := by
  have h : (updateFromChat (ingestResumeData ⟨{}, none⟩ { skills := some ["Python"] } "t1")
      "update_skills" { skills := ["python", "Go"] } "t2").profile.skills
      = ["Python", "python", "Go"] := rfl
  refine ⟨?_, ?_, by decide, by decide⟩
  · rw [h]; simp
  · rw [h]; simp

/-- C3 amended: the skill set after resume ingestion followed by a
chat-driven skill update is the exact-string union — it never contains two
entries that are equal as strings (case-sensitively), and its members are
exactly the resume skills plus the chat skills; entries differing only in
case are kept as distinct skills. -/
theorem persona_skills_exact_union (st : PMState) (l1 l2 : List String)
    (t1 t2 : String) (h1 : l1 ≠ []) :
    ((updateFromChat (ingestResumeData st { skills := some l1 } t1)
        "update_skills" { skills := l2 } t2).profile.skills).Nodup ∧
    ∀ x, x ∈ (updateFromChat (ingestResumeData st { skills := some l1 } t1)
        "update_skills" { skills := l2 } t2).profile.skills ↔ x ∈ l1 ∨ x ∈ l2 := by
  have hskills : (ingestResumeData st { skills := some l1 } t1).profile.skills = l1 := by
    show (resumeSkillsOpt { skills := some l1 }).getD st.profile.skills = l1
    cases l1 with
    | nil => exact absurd rfl h1
    | cons a t => rfl
  have hfinal : (updateFromChat (ingestResumeData st { skills := some l1 } t1)
      "update_skills" { skills := l2 } t2).profile.skills = setUnion l1 l2 := by
    rw [show (updateFromChat (ingestResumeData st { skills := some l1 } t1)
        "update_skills" { skills := l2 } t2).profile.skills
        = setUnion (ingestResumeData st { skills := some l1 } t1).profile.skills l2 from rfl,
      hskills]
  rw [hfinal]
  refine ⟨setList_nodup _, ?_⟩
  intro x
  rw [show setUnion l1 l2 = setList (l1 ++ l2) from rfl, mem_setList, List.mem_append]

/-- Witness for `persona_skills_exact_union` with matching case: the claimed
example sequence yields exactly the two skills. -/
theorem persona_skills_exact_union_witness :
    ((updateFromChat (ingestResumeData ⟨{}, none⟩ { skills := some ["Python"] } "t1")
        "update_skills" { skills := ["Python", "Go"] } "t2").profile.skills).Nodup ∧
    "Go" ∈ (updateFromChat (ingestResumeData ⟨{}, none⟩ { skills := some ["Python"] } "t1")
        "update_skills" { skills := ["Python", "Go"] } "t2").profile.skills := by
  have h := persona_skills_exact_union ⟨{}, none⟩ ["Python"] ["Python", "Go"] "t1" "t2"
    (by decide)
  exact ⟨h.1, (h.2 "Go").mpr (Or.inr (by simp))⟩

/-- C4 counterexample: for the message `"Hello there!"` — which matches no
routing keyword — an erroring/unavailable model classification call
(`modelReply = none`) makes the router propagate the exception (result
`none`): it neither returns `"profile"` nor any valid agent identifier,
because `SupervisorAgent.run` awaits `self.llm.ainvoke` outside any
`try`. -/
theorem router_error_counterexample :
    ainvokeRoute ["Hello there!"] none = none ∧
    wfKeywordRoute (pyLower "Hello there!".data) = none ∧
    (ainvokeRoute ["Hello there!"] none).isSome = false ∧
    ainvokeRoute ["Hello there!"] none ≠ some "profile" := by
  refine ⟨rfl, rfl, rfl, ?_⟩
  intro h
  rw [show ainvokeRoute ["Hello there!"] none = none from rfl] at h
  exact Option.noConfusion h

/-- C4 amended: whenever the router returns (keyword hit, or a model reply
arrived), the result is exactly one of the five valid agent identifiers;
and the router raises precisely when no keyword matches and the model
classification call itself raises — in that case the exception propagates
instead of defaulting to `"profile"`. -/
theorem router_returns_valid_agent (messages : List String) (r : Option String) :
    (∀ a, ainvokeRoute messages r = some a → a ∈ validAgents) ∧
    (ainvokeRoute messages r = none ↔
      wfKeywordRoute (pyLower ((messages.getLast?).getD "").data) = none ∧ r = none) := by
  constructor
  · intro a ha
    unfold ainvokeRoute at ha
    cases hkw : wfKeywordRoute (pyLower ((messages.getLast?).getD "").data) with
    | some b =>
      rw [hkw] at ha
      rw [Option.some.injEq] at ha
      rw [← ha]
      exact validateAgent_mem b
    | none =>
      rw [hkw] at ha
      cases r with
      | none => exact Option.noConfusion ha
      | some reply =>
        rw [show supervisorRun (some reply) ((messages.getLast?).getD "")
            = some (if supClean reply ∈ validAgents then supClean reply
                else match supKeywordFallback (pyLower ((messages.getLast?).getD "").data) with
                  | some x => x
                  | none => "profile") from rfl, Option.map_some', Option.some.injEq] at ha
        rw [← ha]
        exact validateAgent_mem _
  · unfold ainvokeRoute
    cases hkw : wfKeywordRoute (pyLower ((messages.getLast?).getD "").data) with
    | some b => simp
    | none =>
      cases r with
      | none => simp [supervisorRun]
      | some reply => simp [supervisorRun]

/-- Witness for `router_returns_valid_agent`: a keyword-free message with a
garbage model reply routes to `"profile"`, which is in the valid set; and
with `modelReply = none` the result is `none`. -/
theorem router_returns_valid_agent_witness :
    ("profile" ∈ validAgents) ∧
    (ainvokeRoute ["Hello there!"] (some "gibberish") = some "profile") ∧
    (ainvokeRoute ["Hello there!"] none = none) := by
  have h := router_returns_valid_agent ["Hello there!"] (some "gibberish")
  have h2 := router_returns_valid_agent ["Hello there!"] none
  refine ⟨h.1 "profile" rfl, rfl, h2.2.mpr ⟨rfl, rfl⟩⟩

/-- C5: any message whose lowercased text contains `"review my resume"`
contains the keyword `"resume"`, hence the first branch of the
deterministic scan fires and the router returns the resume agent for every
possible model behaviour — the model is never consulted. -/
theorem router_resume_keyword_first (messages : List String) (r : Option String)
    (h : containsSub "review my resume".data
        (pyLower ((messages.getLast?).getD "").data) = true) :
    ainvokeRoute messages r = some "resume" := by
  have hres : containsSub "resume".data (pyLower ((messages.getLast?).getD "").data) = true :=
    containsSub_trans (by decide) h
  have hany : containsAny (pyLower ((messages.getLast?).getD "").data)
      ["resume", "cv", "review my"] = true := by
    unfold containsAny
    rw [List.any_cons, hres]
    rfl
  have hkw : wfKeywordRoute (pyLower ((messages.getLast?).getD "").data) = some "resume" := by
    unfold wfKeywordRoute
    rw [hany]
    rfl
  unfold ainvokeRoute
  rw [hkw]
  rfl

/-- Witness for `router_resume_keyword_first` on a message that also
carries job-search keywords. -/
theorem router_resume_keyword_first_witness :
    ainvokeRoute ["Please review my resume and help me apply for a job"] none
      = some "resume" :=
  router_resume_keyword_first ["Please review my resume and help me apply for a job"] none
    (by decide)

/-- C7 counterexample: on the cache-hit path the stream is the single frame
`complete`, which is not among the claimed frame types
`{start, agent, chunk, done, error}`, and the stream is not terminated by a
`done` or `error` frame. -/
theorem stream_cache_hit_counterexample :
    chatStreamFrames (some "cached") [] none = [Frame.complete] ∧
    (chatStreamFrames (some "cached") [] none).all claimedFrameType = false ∧
    endsDoneOrError (chatStreamFrames (some "cached") [] none) = false :=
  ⟨rfl, rfl, rfl⟩

/-- C7 amended: on the non-cached path every frame has a type in
`{start, agent, chunk, done, error}` and the stream is terminated by a
`done` or `error` frame; the cache-hit path instead emits exactly one frame
of the additional type `complete`. -/
theorem stream_frames_typed (events : List WEvent) (failAfter : Option (Nat × String))
    (c : String) :
    (chatStreamFrames none events failAfter).all claimedFrameType = true ∧
    endsDoneOrError (chatStreamFrames none events failAfter) = true ∧
    chatStreamFrames (some c) events failAfter = [Frame.complete] := by
  refine ⟨?_, ?_, rfl⟩
  · cases failAfter with
    | some km =>
      obtain ⟨k, msg⟩ := km
      show (Frame.start :: (processEvents (events.take k)).1
          ++ [Frame.error msg]).all claimedFrameType = true
      have hl := all_imp (fun f hf => loopFrame_claimed hf)
        (processEvents_loopFrames (events.take k))
      simp only [List.all_cons, List.all_append, Bool.and_eq_true]
      exact ⟨⟨rfl, hl⟩, rfl, rfl⟩
    | none =>
      show (Frame.start :: (processEvents events).1
          ++ [if (processEvents events).2.1 = "" then Frame.error "No response generated"
              else Frame.done (processEvents events).2.1]).all claimedFrameType = true
      have hl := all_imp (fun f hf => loopFrame_claimed hf)
        (processEvents_loopFrames events)
      simp only [List.all_cons, List.all_append, Bool.and_eq_true]
      refine ⟨⟨rfl, hl⟩, ?_⟩
      by_cases hc : (processEvents events).2.1 = "" <;> simp [hc, claimedFrameType]
  · cases failAfter with
    | some km =>
      obtain ⟨k, msg⟩ := km
      show endsDoneOrError (Frame.start :: (processEvents (events.take k)).1
          ++ [Frame.error msg]) = true
      unfold endsDoneOrError
      rw [getLast_cons_append]
      rfl
    | none =>
      show endsDoneOrError (Frame.start :: (processEvents events).1
          ++ [if (processEvents events).2.1 = "" then Frame.error "No response generated"
              else Frame.done (processEvents events).2.1]) = true
      unfold endsDoneOrError
      rw [getLast_cons_append]
      by_cases hc : (processEvents events).2.1 = "" <;> simp [hc, isDoneOrErrorO]

/-- When no fence marker occurs and the brace span exists, `_parse_json`
returns the parse of the repaired candidate as soon as that parse
succeeds. -/
lemma parseJsonModel_candidate_branch (s : String) (c : List Char) (v : Json)
    (hjf : containsSub fenceJsonMarker s.data = false)
    (hnf : containsSub fenceMarker s.data = false)
    (hbs : braceSpan s.data = some c)
    (hv : loadsChars (repairList c) = some v) :
    parseJsonModel s = some v := by
  simp only [parseJsonModel, hjf, hnf, Bool.false_eq_true, if_false, hbs, hv]

/-- The concrete input `[{"a":1}]` of the C1 counterexample. -/
def c1Input : String := String.mk ['[', '{', '"', 'a', '"', ':', '1', '}', ']']

/-- C1 counterexample: the input `[{"a":1}]` is valid JSON with no fence
markers, a strict parse yields the one-element array, but `_parse_json`
takes the inner `{"a":1}` span (first `{` to last `}`) and returns the
bare object — not a value equal to the direct parse. -/
theorem parse_json_direct_counterexample :
    pyJsonLoads c1Input = some (.arr [.obj [("a", .num "1")]]) ∧
    containsSub fenceMarker c1Input.data = false ∧
    parseJsonModel c1Input = some (.obj [("a", .num "1")]) ∧
    parseJsonModel c1Input ≠ pyJsonLoads c1Input := by
  refine ⟨rfl, rfl, rfl, ?_⟩
  intro h
  rw [show parseJsonModel c1Input = some (.obj [("a", .num "1")]) from rfl,
    show pyJsonLoads c1Input = some (.arr [.obj [("a", .num "1")]]) from rfl] at h
  exact Json.noConfusion (Option.some.inj h)

/-- C1 amended: for every input that is a valid JSON object — JSON
whitespace around a `{...}` body — with no markdown fence markers and whose
body is left unchanged by the trailing-comma repair, the Extractor returns
a value equal to the result of parsing the input directly with the strict
parser. -/
theorem parse_json_agrees_with_direct (s : String) (wsa mid wsb : List Char) (v : Json)
    (hs : s.data = wsa ++ ('{' :: mid ++ ['}']) ++ wsb)
    (hwa : wsa.all isJsonWs = true) (hwb : wsb.all isJsonWs = true)
    (hnf : containsSub fenceMarker s.data = false)
    (hrep : repairList ('{' :: mid ++ ['}']) = '{' :: mid ++ ['}'])
    (hv : pyJsonLoads s = some v) :
    parseJsonModel s = pyJsonLoads s := by
  have hjf := not_containsSub_fenceJson hnf
  have hstrip : jsonStrip s.data = '{' :: mid ++ ['}'] := by
    rw [hs]; exact jsonStrip_decomp wsa mid wsb hwa hwb
  have hbs : braceSpan s.data = some ('{' :: mid ++ ['}']) := by
    rw [hs]; exact braceSpan_decomp wsa mid wsb hwa hwb
  have hloads : loadsChars ('{' :: mid ++ ['}']) = pyJsonLoads s := by
    show loadsChars ('{' :: mid ++ ['}']) = loadsChars s.data
    unfold loadsChars
    rw [jsonStrip_self mid, hstrip]
  have hv' : loadsChars (repairList ('{' :: mid ++ ['}'])) = some v := by
    rw [hrep, hloads, hv]
  rw [hv]
  exact parseJsonModel_candidate_branch s ('{' :: mid ++ ['}']) v hjf hnf hbs hv'

/-- The concrete valid object used as witness input for C1. -/
def c1Good : String := String.mk ['{', '"', 'a', '"', ':', ' ', '1', '}']

/-- Witness for `parse_json_agrees_with_direct` on `{"a": 1}`. -/
theorem parse_json_agrees_with_direct_witness :
    parseJsonModel c1Good = pyJsonLoads c1Good :=
  parse_json_agrees_with_direct c1Good [] ['"', 'a', '"', ':', ' ', '1'] []
    (.obj [("a", .num "1")]) rfl rfl rfl rfl rfl rfl

/-- The concrete input `{"a":1//x\n}` of the C6 counterexample. -/
def c6Input : String :=
  String.mk ['{', '"', 'a', '"', ':', '1', '/', '/', 'x', '\n', '}']

/-- C6 counterexample: on `{"a":1//x\n}` the strict parse of the candidate
fails, and the repair described by the claim (comment removal plus
trailing-comma removal, `specRepairPass`) would reparse successfully to
`{"a": 1}` — but `_parse_json`'s repair removes no comments, so the
extractor fails outright. -/
theorem parse_json_comment_repair_counterexample :
    braceSpan c6Input.data = some c6Input.data ∧
    loadsChars c6Input.data = none ∧
    loadsChars (specRepairPass c6Input.data) = some (.obj [("a", .num "1")]) ∧
    parseJsonModel c6Input = none ∧
    parseJsonModel c6Input ≠ loadsChars (specRepairPass c6Input.data) := by
  refine ⟨rfl, rfl, rfl, rfl, ?_⟩
  intro h
  rw [show parseJsonModel c6Input = none from rfl,
    show loadsChars (specRepairPass c6Input.data) = some (.obj [("a", .num "1")]) from rfl] at h
  exact Option.noConfusion h

/-- C6 amended: once a candidate substring is located, the Extractor
applies a repair pass that removes only commas immediately before a closing
brace or bracket (no `//`-comment removal), applies it before the single
strict parse of the candidate, and returns that parse's value when it
succeeds. -/
theorem parse_json_comma_repair_only (s : String) (c : List Char) (v : Json)
    (hnf : containsSub fenceMarker s.data = false)
    (hbs : braceSpan s.data = some c)
    (hv : loadsChars (repairList c) = some v) :
    parseJsonModel s = some v :=
  parseJsonModel_candidate_branch s c v (not_containsSub_fenceJson hnf) hnf hbs hv

/-- Witness input `x{"a":2,}` for C6: noise before the span and a trailing
comma inside it. -/
def c6Good : String := String.mk ['x', '{', '"', 'a', '"', ':', '2', ',', '}']

/-- Witness for `parse_json_comma_repair_only`. -/
theorem parse_json_comma_repair_only_witness :
    parseJsonModel c6Good = some (.obj [("a", .num "2")]) :=
  parse_json_comma_repair_only c6Good ['{', '"', 'a', '"', ':', '2', ',', '}']
    (.obj [("a", .num "2")]) rfl rfl rfl

/-- C9 amended: an input that is a JSON object with exactly one trailing
comma immediately before the closing brace — surrounding JSON whitespace, a
`{...,}` body whose comma-free version parses — is successfully repaired
and parsed by the Extractor to the object obtained by deleting that comma,
provided the input contains no markdown fence marker and the final comma is
the body's only match of the repair regex (no comma followed by optional
whitespace and a closing brace or bracket elsewhere, in particular not
inside a string literal). -/
theorem parse_json_trailing_comma_repaired (s : String) (wsa mid wsb : List Char) (v : Json)
    (hs : s.data = wsa ++ ('{' :: (mid ++ [',']) ++ ['}']) ++ wsb)
    (hwa : wsa.all isJsonWs = true) (hwb : wsb.all isJsonWs = true)
    (hnf : containsSub fenceMarker s.data = false)
    (hno : noPatWithSuffix ('{' :: mid) = true)
    (hv : loadsChars ('{' :: mid ++ ['}']) = some v) :
    parseJsonModel s = some v := by
  have hjf := not_containsSub_fenceJson hnf
  have hbs : braceSpan s.data = some ('{' :: (mid ++ [',']) ++ ['}']) := by
    rw [hs]; exact braceSpan_decomp wsa (mid ++ [',']) wsb hwa hwb
  have hrep : repairList ('{' :: (mid ++ [',']) ++ ['}']) = '{' :: mid ++ ['}'] := by
    have h := repairList_single_trailing ('{' :: mid) hno
    rw [show '{' :: (mid ++ [',']) ++ ['}'] = ('{' :: mid) ++ [',', '}'] by simp] at *
    exact h
  have hv' : loadsChars (repairList ('{' :: (mid ++ [',']) ++ ['}'])) = some v := by
    rw [hrep, hv]
  exact parseJsonModel_candidate_branch s ('{' :: (mid ++ [',']) ++ ['}']) v hjf hnf hbs hv'

/-- The concrete input `{"a":1,}` from the specification's example. -/
def c9Input : String := String.mk ['{', '"', 'a', '"', ':', '1', ',', '}']

/-- Witness for `parse_json_trailing_comma_repaired` on `{"a":1,}`. -/
theorem parse_json_trailing_comma_repaired_witness :
    parseJsonModel c9Input = some (.obj [("a", .num "1")]) :=
  parse_json_trailing_comma_repaired c9Input [] ['"', 'a', '"', ':', '1'] []
    (.obj [("a", .num "1")]) rfl rfl rfl rfl (by decide) rfl

/-- The concrete input `{"a":",}",}` of the C9 counterexample: a JSON
object with exactly one trailing comma before its closing brace (deleting
it gives the valid object `{"a":",}"}`), but whose string literal also
contains the comma-before-brace pattern. -/
def c9Bad : String :=
  String.mk ['{', '"', 'a', '"', ':', '"', ',', '}', '"', ',', '}']

/-- C9 counterexample: on `{"a":",}",}` the blind `re.sub` repair also
deletes the comma inside the string literal, so the Extractor returns
`{"a":"}"}` — not the object obtained by deleting the single trailing
comma, which is `{"a":",}"}`. -/
theorem parse_json_trailing_comma_counterexample :
    containsSub fenceMarker c9Bad.data = false ∧
    loadsChars (['{', '"', 'a', '"', ':', '"', ',', '}', '"'] ++ ['}'])
      = some (Json.obj [("a", Json.str (String.mk [',', '}']))]) ∧
    parseJsonModel c9Bad = some (Json.obj [("a", Json.str (String.mk ['}']))]) ∧
    parseJsonModel c9Bad
      ≠ loadsChars (['{', '"', 'a', '"', ':', '"', ',', '}', '"'] ++ ['}']) := by
  refine ⟨rfl, rfl, rfl, ?_⟩
  intro h
  rw [show parseJsonModel c9Bad = some (Json.obj [("a", Json.str (String.mk ['}']))]) from rfl,
    show loadsChars (['{', '"', 'a', '"', ':', '"', ',', '}', '"'] ++ ['}'])
      = some (Json.obj [("a", Json.str (String.mk [',', '}']))]) from rfl] at h
  injection h with h1
  injection h1 with h2
  injection h2 with h3 htl
  injection h3 with hfst hsnd
  injection hsnd with h5
  injection h5 with h6
  exact absurd h6 (by decide)
